import Mathlib

/-!
Shallow embedding of the godernize `ctxnil` analyzer and of the
`internal/directive` package, together with theorems settling the
specification claims about them.

The embedding mirrors the Go source: the directive parser and lookup
(`ParseIgnore`, `ShouldIgnore`), the suppression scope resolver
(`shouldIgnoreInFunction`, `shouldIgnoreFromComment`, `shouldIgnore`),
the sentinel comparison classifier (`analyzeContextNilComparison`),
the boolean simplifier (`buildReplacementCondition` and its helpers),
the diagnostic synthesizer (`createConditionFix` and friends) and the
traversal driver (`runStep` / `runEvents` over a preorder event list).

Go AST nodes are modelled by inductive types carrying a `NodeInfo`
record: a node identity (standing for the pointer identity Go uses to
key its processed-expression map) and the source position span.
Machine strings are Lean strings; the few Go standard library string
functions used by the source are embedded as executable list-based
functions (`goTrimSpace`, `goSplitComma`, `goCut`).
-/

/-- Node identity and source span of an AST node. The `id` field stands for
the pointer identity of the Go AST node; `pos` and `endPos` are its source
position span (Go `Pos()` and `End()`). -/
structure NodeInfo where
  id : Nat
  pos : Nat
  endPos : Nat
deriving DecidableEq

/-- Binary operator kinds relevant to the analyzer, with the remaining Go
token kinds collapsed into `otherOp` carrying their textual spelling. -/
inductive Op where
  | eql
  | neq
  | land
  | lor
  | otherOp (text : String)
deriving DecidableEq

/-- Go expression nodes, as read by the analyzer: binary expressions,
parenthesized wrappers, unary wrappers, identifiers, and an opaque leaf
`otherE` for every other shape (calls, selectors, literals, ...).  The
`src` field of `otherE` records the source text spanned by the node (in Go
it is recoverable from the position span and the file contents). -/
inductive GoExpr where
  | binary (info : NodeInfo) (op : Op) (x y : GoExpr)
  | paren (info : NodeInfo) (x : GoExpr)
  | unary (info : NodeInfo) (x : GoExpr)
  | ident (info : NodeInfo) (name : String)
  | otherE (info : NodeInfo) (src : String)
deriving DecidableEq

/-- The `NodeInfo` of an expression (Go `expr.Pos()` / `expr.End()` plus
its identity). -/
def exprInfo : GoExpr → NodeInfo
  | .binary i _ _ _ => i
  | .paren i _ => i
  | .unary i _ => i
  | .ident i _ => i
  | .otherE i _ => i

/-- Resolved static types, as far as `isContextType` inspects them: a named
type with the package path of its defining object (`none` when the object
or its package is absent), or anything else. -/
inductive GoType where
  | named (pkgPath : Option String) (name : String)
  | unnamedT
deriving DecidableEq

/-- The type resolution oracle, standing for `pass.TypesInfo.TypeOf`. -/
abbrev TypeOracle := GoExpr → Option GoType

/-- Go statement nodes, as far as the analyzer reads them: blocks, if
statements (with optional else), expression statements and an opaque rest. -/
inductive GoStmt where
  | block (info : NodeInfo) (stmts : List GoStmt)
  | ifS (info : NodeInfo) (cond : GoExpr) (body : GoStmt) (els : Option GoStmt)
  | exprS (info : NodeInfo) (e : GoExpr)
  | otherS (info : NodeInfo)

/-- Whitespace as recognised by Go `unicode.IsSpace` on the characters that
occur in source comments. -/
def isGoSpace (c : Char) : Bool :=
  c = ' ' || c = '\t' || c = '\n' || c = '\x0b' || c = '\x0c' || c = '\r' ||
    c = '\u0085' || c = ' '

/-- Go `strings.TrimSpace`. -/
def goTrimSpace (s : String) : String :=
  String.mk (((s.toList.dropWhile isGoSpace).reverse.dropWhile isGoSpace).reverse)

/-- Core of Go `strings.Split` with separator `","` over a character list. -/
def splitCommaCore : List Char → List (List Char)
  | [] => [[]]
  | c :: cs =>
    let r := splitCommaCore cs
    if c = ',' then [] :: r
    else
      match r with
      | [] => [[c]]
      | h :: t => (c :: h) :: t

/-- Go `strings.Split(s, ",")`. -/
def goSplitComma (s : String) : List String :=
  (splitCommaCore s.toList).map fun cs => String.mk cs

/-- Go `strings.CutPrefix(s, pre)`: `some` of the remainder when `pre`
starts `s`, else `none`. -/
def goCut (pre s : String) : Option String :=
  if s.toList.take pre.toList.length = pre.toList then
    some (String.mk (s.toList.drop pre.toList.length))
  else none

/-- A comment group: the comment texts and the source position one past the
end of the group (Go `CommentGroup.End()`). -/
structure CommentGroup where
  list : List String
  endPos : Nat
deriving DecidableEq

/-- The parsed ignore directive of the directive package. -/
structure Ignore where
  Names : List String
deriving DecidableEq

/-- The comment loop of `directive.ParseIgnore`, over the comment texts. -/
def parseIgnoreLoop : List String → Option Ignore
  | [] => none
  | c :: rest =>
    let text := goTrimSpace c
    if text = "//godernize:ignore" then some ⟨[]⟩
    else
      match goCut "//godernize:ignore=" text with
      | some v =>
        let val := goTrimSpace v
        if val = "" then some ⟨[]⟩
        else
          let names := goSplitComma val
          if names.length = 0 then parseIgnoreLoop rest
          else
            let trimmed := names.map goTrimSpace
            if trimmed.length > 0 then some ⟨trimmed⟩ else some ⟨[]⟩
      | none => parseIgnoreLoop rest

/-- Go `directive.ParseIgnore`; a `none` argument models a nil comment group. -/
def ParseIgnore : Option CommentGroup → Option Ignore
  | none => none
  | some doc => parseIgnoreLoop doc.list

/-- Go `Ignore.hasName`. -/
def hasName (i : Ignore) (name : String) : Bool :=
  i.Names.contains name

/-- Go `Ignore.ShouldIgnore`. -/
def ShouldIgnore (i : Ignore) (name : String) : Bool :=
  if i.Names.length = 0 then true else hasName i name

/-- Top level declarations of a file, as far as the suppression resolver
reads them: function declarations with span and doc comment, or others. -/
inductive Decl where
  | funcDecl (info : NodeInfo) (doc : Option CommentGroup)
  | otherDecl (info : NodeInfo)
deriving DecidableEq

/-- A source file: its declarations and its comment groups. -/
structure GoFile where
  decls : List Decl
  comments : List CommentGroup
deriving DecidableEq

/-- Go `shouldIgnoreInFunction`: the node lies within a function declaration
whose doc comment parses to a matching directive. -/
def shouldIgnoreInFunction (file : GoFile) (nodePos nodeEnd : Nat)
    (analyzerName : String) : Bool :=
  file.decls.any fun d =>
    match d with
    | .funcDecl info doc =>
      if nodePos ≥ info.pos ∧ nodeEnd ≤ info.endPos then
        match ParseIgnore doc with
        | some ig => ShouldIgnore ig analyzerName
        | none => false
      else false
    | .otherDecl _ => false

/-- Go `shouldIgnoreFromComment`: some comment group ends at or before the
node start, within 200 characters, and parses to a matching directive. -/
def shouldIgnoreFromComment (file : GoFile) (nodePos : Nat)
    (analyzerName : String) : Bool :=
  file.comments.any fun cg =>
    if cg.endPos ≤ nodePos ∧ nodePos - cg.endPos ≤ 200 then
      match ParseIgnore (some cg) with
      | some ig => ShouldIgnore ig analyzerName
      | none => false
    else false

/-- Go `shouldIgnore`. -/
def shouldIgnore (file : GoFile) (nodePos nodeEnd : Nat)
    (analyzerName : String) : Bool :=
  shouldIgnoreInFunction file nodePos nodeEnd analyzerName ||
    shouldIgnoreFromComment file nodePos analyzerName

/-- Go `isContextType`: the resolved type is the named type `Context` of
package path `context`. -/
def isContextType (o : TypeOracle) (e : GoExpr) : Bool :=
  match o e with
  | none => false
  | some t =>
    match t with
    | .named (some pkgPath) n => pkgPath == "context" && n == "Context"
    | _ => false

/-- Go `isNilIdent`: the expression is the identifier `nil`. -/
def isNilIdent (e : GoExpr) : Bool :=
  match e with
  | .ident _ n => n == "nil"
  | _ => false

/-- Go `analyzeContextNilComparison` on a binary expression with operator `op`
and operands `x`, `y`; `some (ctxSide, nilSide, isEqual)` when applicable. -/
def analyzeContextNilComparison (o : TypeOracle) (op : Op) (x y : GoExpr) :
    Option (GoExpr × GoExpr × Bool) :=
  if op ≠ Op.eql ∧ op ≠ Op.neq then none
  else
    let leftIsCtx := isContextType o x
    let rightIsCtx := isContextType o y
    let leftIsNil := isNilIdent x
    let rightIsNil := isNilIdent y
    if leftIsCtx && rightIsNil then some (x, y, decide (op = Op.eql))
    else if rightIsCtx && leftIsNil then some (y, x, decide (op = Op.eql))
    else none

/-- Go `token.Token.String` on the operators the formatter can meet. -/
def opText : Op → String
  | .eql => "=="
  | .neq => "!="
  | .land => "&&"
  | .lor => "||"
  | .otherOp s => s

/-- Go `formatExpr`: identifiers print as their name, binary expressions print
recursively joined by the operator, every other shape prints as the fixed
placeholder `expr`. -/
def formatExpr : GoExpr → String
  | .binary _ op x y => formatExpr x ++ " " ++ opText op ++ " " ++ formatExpr y
  | .ident _ n => n
  | _ => "expr"

/-- Go `formatStmt`: block statements print as a fixed placeholder block,
if statements as a fixed placeholder conditional, others as a comment. -/
def formatStmt : GoStmt → String
  | .block _ _ => "\x7b\n\t// statements\n\x7d"
  | .ifS _ _ _ _ => "if condition \x7b /* ... */ \x7d"
  | _ => "/* statement */"

/-- The constant `trueValue`. -/
def trueValue : String := "true"

/-- The constant `falseValue`. -/
def falseValue : String := "false"

/-- Go `ReplacementCondition`. -/
structure ReplacementCondition where
  NewCondition : String
  IsLiteral : Bool
  Message : String
deriving DecidableEq

/-- The Go guard `rep != nil && rep.IsLiteral`. -/
def repIsLiteral : Option ReplacementCondition → Bool
  | some r => r.IsLiteral
  | none => false

/-- Go `isLiteralExpr`. -/
def isLiteralExpr (e : String) (rep : Option ReplacementCondition) : Bool :=
  repIsLiteral rep || e == trueValue || e == falseValue

/-- Go `checkAndShortCircuit`. -/
def checkAndShortCircuit (leftExpr rightExpr : String)
    (leftRep rightRep : Option ReplacementCondition) :
    Option ReplacementCondition :=
  if repIsLiteral leftRep && leftExpr == falseValue then
    some ⟨falseValue, true, "condition is always false (left side is false)"⟩
  else if repIsLiteral rightRep && rightExpr == falseValue then
    some ⟨falseValue, true, "condition is always false (right side is false)"⟩
  else none

/-- Go `checkAndSimplification`. -/
def checkAndSimplification (leftExpr rightExpr : String)
    (leftRep rightRep : Option ReplacementCondition) :
    Option ReplacementCondition :=
  if repIsLiteral leftRep && leftExpr == trueValue then
    some ⟨rightExpr, isLiteralExpr rightExpr rightRep,
      "simplify to \x27" ++ rightExpr ++ "\x27 (left side is always true)"⟩
  else if rightExpr == trueValue then
    some ⟨leftExpr, isLiteralExpr leftExpr leftRep,
      "simplify to \x27" ++ leftExpr ++ "\x27 (right side is always true)"⟩
  else none

/-- Go `buildAndReplacement`. -/
def buildAndReplacement (leftExpr rightExpr : String)
    (leftRep rightRep : Option ReplacementCondition) :
    Option ReplacementCondition :=
  if leftRep.isSome || rightRep.isSome then
    some ⟨leftExpr ++ " && " ++ rightExpr, false,
      "simplify to \x27" ++ (leftExpr ++ " && " ++ rightExpr) ++ "\x27"⟩
  else none

/-- Go `simplifyAndExpr`. -/
def simplifyAndExpr (leftExpr rightExpr : String)
    (leftRep rightRep : Option ReplacementCondition) :
    Option ReplacementCondition :=
  match checkAndShortCircuit leftExpr rightExpr leftRep rightRep with
  | some result => some result
  | none =>
    match checkAndSimplification leftExpr rightExpr leftRep rightRep with
    | some result => some result
    | none => buildAndReplacement leftExpr rightExpr leftRep rightRep

/-- Go `checkOrShortCircuit`. -/
def checkOrShortCircuit (leftExpr rightExpr : String)
    (leftRep rightRep : Option ReplacementCondition) :
    Option ReplacementCondition :=
  if repIsLiteral leftRep && leftExpr == trueValue then
    some ⟨trueValue, true, "condition is always true (left side is true)"⟩
  else if repIsLiteral rightRep && rightExpr == trueValue then
    some ⟨trueValue, true, "condition is always true (right side is true)"⟩
  else none

/-- Go `checkOrSimplification`. -/
def checkOrSimplification (leftExpr rightExpr : String)
    (leftRep rightRep : Option ReplacementCondition) :
    Option ReplacementCondition :=
  if repIsLiteral leftRep && leftExpr == falseValue then
    some ⟨rightExpr, isLiteralExpr rightExpr rightRep,
      "simplify to \x27" ++ rightExpr ++ "\x27 (left side is always false)"⟩
  else if rightExpr == falseValue then
    some ⟨leftExpr, isLiteralExpr leftExpr leftRep,
      "simplify to \x27" ++ leftExpr ++ "\x27 (right side is always false)"⟩
  else none

/-- Go `buildOrReplacement`. -/
def buildOrReplacement (leftExpr rightExpr : String)
    (leftRep rightRep : Option ReplacementCondition) :
    Option ReplacementCondition :=
  if leftRep.isSome || rightRep.isSome then
    some ⟨leftExpr ++ " || " ++ rightExpr, false,
      "simplify to \x27" ++ (leftExpr ++ " || " ++ rightExpr) ++ "\x27"⟩
  else none

/-- Go `simplifyOrExpr`. -/
def simplifyOrExpr (leftExpr rightExpr : String)
    (leftRep rightRep : Option ReplacementCondition) :
    Option ReplacementCondition :=
  match checkOrShortCircuit leftExpr rightExpr leftRep rightRep with
  | some result => some result
  | none =>
    match checkOrSimplification leftExpr rightExpr leftRep rightRep with
    | some result => some result
    | none => buildOrReplacement leftExpr rightExpr leftRep rightRep

/-- Go `buildReplacementCondition`, with the bodies of `handleBinaryExpr` and
`handleLogicalExpr` inlined at the binary case so that the recursion is
structural; the wrappers below restate the Go decomposition and agree with
this definition judgmentally. -/
def buildReplacementCondition (o : TypeOracle) : GoExpr → Option ReplacementCondition
  | .binary info op x y =>
    match analyzeContextNilComparison o op x y with
    | some (_, _, isEqual) =>
      let replacement := if isEqual then falseValue else trueValue
      some ⟨replacement, true,
        "context nil comparison \x27" ++ formatExpr (.binary info op x y) ++
          "\x27 is always " ++ replacement⟩
    | none =>
      if op = Op.land ∨ op = Op.lor then
        match buildReplacementCondition o x, buildReplacementCondition o y with
        | none, none => none
        | lr, rr =>
          let leftExpr := match lr with | some l => l.NewCondition | none => formatExpr x
          let rightExpr := match rr with | some r => r.NewCondition | none => formatExpr y
          if op = Op.land then simplifyAndExpr leftExpr rightExpr lr rr
          else simplifyOrExpr leftExpr rightExpr lr rr
      else none
  | .paren _ x =>
    match buildReplacementCondition o x with
    | none => none
    | some inner => some ⟨"(" ++ inner.NewCondition ++ ")", inner.IsLiteral, inner.Message⟩
  | _ => none

/-- Go `handleLogicalExpr`. -/
def handleLogicalExpr (o : TypeOracle) (op : Op) (x y : GoExpr) :
    Option ReplacementCondition :=
  match buildReplacementCondition o x, buildReplacementCondition o y with
  | none, none => none
  | lr, rr =>
    let leftExpr := match lr with | some l => l.NewCondition | none => formatExpr x
    let rightExpr := match rr with | some r => r.NewCondition | none => formatExpr y
    if op = Op.land then simplifyAndExpr leftExpr rightExpr lr rr
    else simplifyOrExpr leftExpr rightExpr lr rr

/-- Go `handleBinaryExpr`. -/
def handleBinaryExpr (o : TypeOracle) (info : NodeInfo) (op : Op) (x y : GoExpr) :
    Option ReplacementCondition :=
  match analyzeContextNilComparison o op x y with
  | some (_, _, isEqual) =>
    let replacement := if isEqual then falseValue else trueValue
    some ⟨replacement, true,
      "context nil comparison \x27" ++ formatExpr (.binary info op x y) ++
        "\x27 is always " ++ replacement⟩
  | none =>
    if op = Op.land ∨ op = Op.lor then handleLogicalExpr o op x y
    else none

/-- Go `analysis.TextEdit`. -/
structure TextEdit where
  pos : Nat
  endPos : Nat
  newText : String
deriving DecidableEq

/-- Go `analysis.SuggestedFix`. -/
structure SuggestedFix where
  message : String
  edits : List TextEdit
deriving DecidableEq

/-- Go `analysis.Diagnostic`. -/
structure Diagnostic where
  pos : Nat
  message : String
  fixes : List SuggestedFix
deriving DecidableEq

/-- Go `createTrueConditionFix` on an if statement with span `info`, body and
optional else branch. -/
def createTrueConditionFix (info : NodeInfo) (body : GoStmt) (els : Option GoStmt) :
    Diagnostic :=
  match els with
  | some _ =>
    ⟨info.pos, "condition is always true, else clause is unreachable",
      [⟨"Replace with then clause", [⟨info.pos, info.endPos, formatStmt body⟩]⟩]⟩
  | none =>
    ⟨info.pos, "condition is always true",
      [⟨"Replace with then clause", [⟨info.pos, info.endPos, formatStmt body⟩]⟩]⟩

/-- Go `createFalseConditionFix`. -/
def createFalseConditionFix (info : NodeInfo) (els : Option GoStmt) : Diagnostic :=
  match els with
  | some e =>
    ⟨info.pos, "condition is always false, then clause is unreachable",
      [⟨"Replace with else clause", [⟨info.pos, info.endPos, formatStmt e⟩]⟩]⟩
  | none =>
    ⟨info.pos, "condition is always false, remove entire if statement",
      [⟨"Remove if statement", [⟨info.pos, info.endPos, ""⟩]⟩]⟩

/-- Go `createConditionFix`. -/
def createConditionFix (info : NodeInfo) (cond : GoExpr) (body : GoStmt)
    (els : Option GoStmt) (replacement : ReplacementCondition) : Diagnostic :=
  if replacement.IsLiteral then
    if replacement.NewCondition = trueValue then createTrueConditionFix info body els
    else createFalseConditionFix info els
  else
    ⟨(exprInfo cond).pos, replacement.Message,
      [⟨"Replace condition with \x27" ++ replacement.NewCondition ++ "\x27",
        [⟨(exprInfo cond).pos, (exprInfo cond).endPos, replacement.NewCondition⟩]⟩]⟩

/-- Go `diagnoseIfStmt`. -/
def diagnoseIfStmt (o : TypeOracle) (file : GoFile) (s : GoStmt) : Option Diagnostic :=
  match s with
  | .ifS info cond body els =>
    if shouldIgnore file info.pos info.endPos "ctxnil" then none
    else
      match buildReplacementCondition o cond with
      | none => none
      | some replacement => some (createConditionFix info cond body els replacement)
  | _ => none

/-- Go `diagnoseBinaryExpr`. -/
def diagnoseBinaryExpr (o : TypeOracle) (file : GoFile) (e : GoExpr) :
    Option Diagnostic :=
  match e with
  | .binary info op x y =>
    match analyzeContextNilComparison o op x y with
    | none => none
    | some (_, _, isEqual) =>
      if shouldIgnore file info.pos info.endPos "ctxnil" then none
      else
        let replacement := if isEqual then falseValue else trueValue
        some ⟨info.pos,
          "context should never be nil, replace \x27" ++
            formatExpr (.binary info op x y) ++ "\x27 with \x27" ++ replacement ++ "\x27",
          [⟨"Replace with " ++ replacement, [⟨info.pos, info.endPos, replacement⟩]⟩]⟩
  | _ => none

/-- Go `markProcessedExpr`, returned as the list of node identities that the Go
function inserts into the processed map: the node itself always, and the
operands recursively through binary, unary and parenthesized wrappers. -/
def markProcessedExpr : GoExpr → List Nat
  | .binary i _ x y => i.id :: (markProcessedExpr x ++ markProcessedExpr y)
  | .unary i x => i.id :: markProcessedExpr x
  | .paren i x => i.id :: markProcessedExpr x
  | .ident i _ => [i.id]
  | .otherE i _ => [i.id]

/-- A traversal event delivered by the preorder inspector under the node
filter `[IfStmt, BinaryExpr]`. -/
inductive DriverEvent where
  | ifEv (info : NodeInfo) (cond : GoExpr) (body : GoStmt) (els : Option GoStmt)
  | binEv (e : GoExpr)

/-- Preorder binary-expression events inside one expression tree. -/
def exprEvents : GoExpr → List DriverEvent
  | .binary i op x y => .binEv (.binary i op x y) :: (exprEvents x ++ exprEvents y)
  | .paren _ x => exprEvents x
  | .unary _ x => exprEvents x
  | _ => []

mutual
/-- Preorder events of one statement. -/
def stmtEvents : GoStmt → List DriverEvent
  | .block _ ss => stmtListEvents ss
  | .ifS info cond body els =>
    .ifEv info cond body els :: (exprEvents cond ++ stmtEvents body ++ optStmtEvents els)
  | .exprS _ e => exprEvents e
  | .otherS _ => []
/-- Preorder events of an optional statement. -/
def optStmtEvents : Option GoStmt → List DriverEvent
  | none => []
  | some s => stmtEvents s
/-- Preorder events of a statement list. -/
def stmtListEvents : List GoStmt → List DriverEvent
  | [] => []
  | s :: ss => stmtEvents s ++ stmtListEvents ss
end

/-- Driver state: the processed-expression set (node identities) and the
reported diagnostics, each paired with the identity of the node it was
reported for. -/
abbrev DriverState := List Nat × List (Nat × Diagnostic)

/-- One step of the preorder callback in `run`. -/
def runStep (o : TypeOracle) (file : GoFile) (st : DriverState) (ev : DriverEvent) :
    DriverState :=
  match ev with
  | .ifEv info cond body els =>
    match diagnoseIfStmt o file (.ifS info cond body els) with
    | some d => (st.1 ++ markProcessedExpr cond, st.2 ++ [(info.id, d)])
    | none => st
  | .binEv e =>
    if (exprInfo e).id ∈ st.1 then st
    else
      match diagnoseBinaryExpr o file e with
      | some d => (st.1, st.2 ++ [((exprInfo e).id, d)])
      | none => st

/-- The fold of `run` over a list of traversal events. -/
def runEvents (o : TypeOracle) (file : GoFile) (evs : List DriverEvent)
    (st : DriverState) : DriverState :=
  evs.foldl (runStep o file) st

/-- Go `run` on one module (one source file), starting from the empty
processed set and no diagnostics. -/
def runModule (o : TypeOracle) (file : GoFile) (m : List GoStmt) : DriverState :=
  runEvents o file (stmtListEvents m) ([], [])

/-- The node identity carried by a traversal event. -/
def eventId : DriverEvent → Nat
  | .ifEv info _ _ _ => info.id
  | .binEv e => (exprInfo e).id

/-- Node identities of a list of traversal events. -/
def eventIds (evs : List DriverEvent) : List Nat :=
  evs.map eventId

/-- Identities of all binary sub-expressions of an expression, reachable
through binary, unary and parenthesized wrappers (the nodes the preorder
inspector visits inside a guard). -/
def binIds : GoExpr → List Nat
  | .binary i _ x y => i.id :: (binIds x ++ binIds y)
  | .paren _ x => binIds x
  | .unary _ x => binIds x
  | _ => []

/-- Modelled from the spec: the original source text of an expression node.
The repository AST stores only position spans, from which the host tooling
recovers the text; here identifiers carry their name, composite shapes are
rendered canonically and opaque leaves carry their recorded span text. -/
def sourceText : GoExpr → String
  | .binary _ op x y => sourceText x ++ " " ++ opText op ++ " " ++ sourceText y
  | .paren _ x => "(" ++ sourceText x ++ ")"
  | .unary _ x => "!" ++ sourceText x
  | .ident _ n => n
  | .otherE _ s => s

/-- The operand text used by `handleLogicalExpr`: the simplified text when
the side yielded a result, else the output of `formatExpr`. -/
def renderOperand (o : TypeOracle) (e : GoExpr) : String :=
  match buildReplacementCondition o e with
  | some r => r.NewCondition
  | none => formatExpr e

/-- Wraps a string in `n` nested pairs of parentheses. -/
def wrapParens : Nat → String → String
  | 0, s => s
  | n + 1, s => "(" ++ wrapParens n s ++ ")"

/-- A type oracle resolving the identifier `ctx` to the named type
`context.Context` and nothing else. -/
def ctxOracle : TypeOracle := fun e =>
  match e with
  | .ident _ n => if n = "ctx" then some (.named (some "context") "Context") else none
  | _ => none

/-- A file with no declarations and no comments (no suppression applies). -/
def emptyFile : GoFile := ⟨[], []⟩

/-- The applicability and equality flag of a classifier result, dropping
the returned operand sides. -/
def classifierVerdict (r : Option (GoExpr × GoExpr × Bool)) : Option Bool :=
  r.map fun t => t.2.2

/-- The literal the analyzer substitutes for a classified comparison:
`falseValue` for equality, `trueValue` for inequality. -/
def resultLiteral (isEqual : Bool) : String :=
  if isEqual then falseValue else trueValue

/-- The comparison `ctx == nil`. -/
def exEqlCmp : GoExpr :=
  .binary ⟨2, 0, 0⟩ .eql (.ident ⟨3, 0, 0⟩ "ctx") (.ident ⟨4, 0, 0⟩ "nil")

/-- The comparison `ctx != nil`. -/
def exNeqCmp : GoExpr :=
  .binary ⟨6, 0, 0⟩ .neq (.ident ⟨7, 0, 0⟩ "ctx") (.ident ⟨8, 0, 0⟩ "nil")

/-- The parenthesized comparison `(ctx == nil)`. -/
def exParenEql : GoExpr := .paren ⟨1, 0, 0⟩ exEqlCmp

/-- The expression `ctx != nil && f()`, with a call on the right. -/
def exAndCall : GoExpr :=
  .binary ⟨20, 0, 0⟩ .land exNeqCmp (.otherE ⟨21, 0, 0⟩ "f()")

/-- The expression `true && (ctx != nil && ready)`: the rendered text of
the left operand is the boolean literal spelling while that operand yields
no simplification result. -/
def exTrueAndParen : GoExpr :=
  .binary ⟨10, 0, 0⟩ .land (.ident ⟨11, 0, 0⟩ "true")
    (.paren ⟨15, 0, 0⟩ (.binary ⟨16, 0, 0⟩ .land exNeqCmp (.ident ⟨17, 0, 0⟩ "ready")))

/-- The mirrored expression `(ctx != nil && ready) && true`. -/
def exParenAndTrue : GoExpr :=
  .binary ⟨10, 0, 0⟩ .land
    (.paren ⟨15, 0, 0⟩ (.binary ⟨16, 0, 0⟩ .land exNeqCmp (.ident ⟨17, 0, 0⟩ "ready")))
    (.ident ⟨11, 0, 0⟩ "true")

/-- The statement `if (ctx != nil) { } else { }`: a parenthesized guard
that folds to a literal, with an else branch. -/
def exIfParenGuard : GoStmt :=
  .ifS ⟨30, 100, 200⟩
    (.paren ⟨31, 103, 120⟩
      (.binary ⟨32, 104, 119⟩ .neq (.ident ⟨33, 104, 107⟩ "ctx") (.ident ⟨34, 116, 119⟩ "nil")))
    (.block ⟨35, 121, 150⟩ []) (some (.block ⟨36, 160, 199⟩ []))

/-- The statement `if ctx != nil { f } else { }`: an unparenthesized guard
folding to literal true, with a nonempty consequent and an else branch. -/
def exIfPlainGuard : GoStmt :=
  .ifS ⟨40, 300, 400⟩
    (.binary ⟨41, 303, 318⟩ .neq (.ident ⟨42, 303, 306⟩ "ctx") (.ident ⟨43, 315, 318⟩ "nil"))
    (.block ⟨44, 320, 350⟩ [.exprS ⟨45, 321, 330⟩ (.ident ⟨46, 321, 330⟩ "f")])
    (some (.block ⟨47, 360, 399⟩ []))

/-- The guard `ctx == nil` of the one-statement witness module. -/
def exModuleCond : GoExpr :=
  .binary ⟨3, 13, 24⟩ .eql (.ident ⟨4, 13, 16⟩ "ctx") (.ident ⟨5, 21, 24⟩ "nil")

/-- A one-statement module `if ctx == nil { }`. -/
def exModule : List GoStmt :=
  [.ifS ⟨1, 10, 50⟩ exModuleCond (.block ⟨2, 20, 40⟩ []) none]

/-- The connective `(ctx == nil) && ctx != nil`: both operands fold to
literal results, but the left literal text is parenthesis-wrapped. -/
def exParenEqlAndNeq : GoExpr := .binary ⟨50, 0, 0⟩ .land exParenEql exNeqCmp

/-- The or-dual connective `(ctx != nil) || ctx == nil`. -/
def exParenNeqOrEql : GoExpr := .binary ⟨51, 0, 0⟩ .lor (.paren ⟨52, 0, 0⟩ exNeqCmp) exEqlCmp

/-! ## Theorems -/

/-- Claim C7: for every parsed directive, `ShouldIgnore name` is true
unconditionally when the name list is empty (blanket form); for a non-empty
list it is true exactly when the queried name occurs in the list, under
exact case-sensitive string comparison; and a directive comment whose value
after the `=` sign trims to the empty string parses to the blanket form. -/
theorem c7_directive_lookup (i : Ignore) (name text : String) (ep : Nat) (v : String) :
    (i.Names = [] → ShouldIgnore i name = true)
    ∧ (i.Names ≠ [] → (ShouldIgnore i name = true ↔ name ∈ i.Names))
    ∧ (goCut "//godernize:ignore=" (goTrimSpace text) = some v →
        goTrimSpace v = "" → ParseIgnore (some ⟨[text], ep⟩) = some ⟨[]⟩) := by
  refine ⟨?_, ?_, ?_⟩
  · intro h
    simp [ShouldIgnore, h]
  · intro h
    have hl : i.Names.length ≠ 0 := fun hh => h (List.length_eq_zero.mp hh)
    simp [ShouldIgnore, hasName, hl, List.contains, List.elem_iff]
  · intro hcut hv
    have ht : goTrimSpace text ≠ "//godernize:ignore" := by
      intro hh
      rw [hh] at hcut
      rw [show goCut "//godernize:ignore=" "//godernize:ignore" = none from by decide] at hcut
      exact Option.noConfusion hcut
    simp [ParseIgnore, parseIgnoreLoop, ht, hcut, hv]

/-- Witness for C7 at concrete directives: a blanket directive ignores any
name, a specific directive ignores exactly its listed name, and a directive
with only whitespace after the `=` sign parses to the blanket form. -/
theorem c7_directive_lookup_witness :
    ShouldIgnore ⟨[]⟩ "ctxnil" = true
    ∧ (ShouldIgnore ⟨["ctxnil"]⟩ "ctxnil" = true ↔ "ctxnil" ∈ ["ctxnil"])
    ∧ ParseIgnore (some ⟨["//godernize:ignore=  "], 7⟩) = some ⟨[]⟩ :=
  ⟨(c7_directive_lookup ⟨[]⟩ "ctxnil" "" 0 "").1 rfl,
   (c7_directive_lookup ⟨["ctxnil"]⟩ "ctxnil" "" 0 "").2.1 (by decide),
   (c7_directive_lookup ⟨[]⟩ "ctxnil" "//godernize:ignore=  " 7 "").2.2
     (by decide) (by decide)⟩

/-- Claim C8: a free-standing directive comment suppresses a node through
the proximity rule exactly when the comment group ends at or before the
node start, the character gap is at most the constant 200, and the comment
parses to a directive matching the analyzer name; a comment ending after
the node start or farther away never suppresses through this rule. -/
theorem c8_proximity_window (file : GoFile) (nodePos : Nat) (name : String) :
    shouldIgnoreFromComment file nodePos name = true ↔
      ∃ cg ∈ file.comments, cg.endPos ≤ nodePos ∧ nodePos - cg.endPos ≤ 200 ∧
        ∃ ig, ParseIgnore (some cg) = some ig ∧ ShouldIgnore ig name = true := by
  simp only [shouldIgnoreFromComment, List.any_eq_true]
  constructor
  · rintro ⟨cg, hmem, h⟩
    split at h
    · next hcond =>
      split at h
      · next ig hig => exact ⟨cg, hmem, hcond.1, hcond.2, ig, hig, h⟩
      · exact absurd h (by simp)
    · exact absurd h (by simp)
  · rintro ⟨cg, hmem, h1, h2, ig, hig, hshould⟩
    refine ⟨cg, hmem, ?_⟩
    rw [if_pos ⟨h1, h2⟩, hig]
    exact hshould

/-- Claim C6: when exactly one operand of an equality or inequality
comparison resolves to `context.Context` and the other operand is the
identifier `nil`, the classifier verdict — applicability, equality flag and
hence the substituted literal — is the same for both operand orders, and
the flag is true exactly for the equality operator. -/
theorem c6_classifier_symmetry (o : TypeOracle) (op : Op) (x y : GoExpr)
    (hop : op = Op.eql ∨ op = Op.neq)
    (hone : (isContextType o x = true ∧ isNilIdent y = true ∧ isContextType o y = false)
          ∨ (isContextType o y = true ∧ isNilIdent x = true ∧ isContextType o x = false)) :
    classifierVerdict (analyzeContextNilComparison o op x y) = some (decide (op = Op.eql))
    ∧ classifierVerdict (analyzeContextNilComparison o op y x) = some (decide (op = Op.eql))
    ∧ (analyzeContextNilComparison o op x y).map (fun t => resultLiteral t.2.2)
        = (analyzeContextNilComparison o op y x).map (fun t => resultLiteral t.2.2) := by
  have hops : ¬(op ≠ Op.eql ∧ op ≠ Op.neq) := by
    rcases hop with h | h <;> simp [h]
  rcases hone with ⟨hx, hy, hxy⟩ | ⟨hy, hx, hyx⟩
  · simp [analyzeContextNilComparison, hops, hx, hy, hxy, classifierVerdict]
  · simp [analyzeContextNilComparison, hops, hx, hy, hyx, classifierVerdict]

/-- Witness for C6 at `ctx != nil` against the concrete context oracle. -/
theorem c6_classifier_symmetry_witness :
    classifierVerdict
        (analyzeContextNilComparison ctxOracle Op.neq (.ident ⟨7, 0, 0⟩ "ctx") (.ident ⟨8, 0, 0⟩ "nil"))
      = some (decide (Op.neq = Op.eql))
    ∧ classifierVerdict
        (analyzeContextNilComparison ctxOracle Op.neq (.ident ⟨8, 0, 0⟩ "nil") (.ident ⟨7, 0, 0⟩ "ctx"))
      = some (decide (Op.neq = Op.eql))
    ∧ (analyzeContextNilComparison ctxOracle Op.neq (.ident ⟨7, 0, 0⟩ "ctx") (.ident ⟨8, 0, 0⟩ "nil")).map
        (fun t => resultLiteral t.2.2)
      = (analyzeContextNilComparison ctxOracle Op.neq (.ident ⟨8, 0, 0⟩ "nil") (.ident ⟨7, 0, 0⟩ "ctx")).map
        (fun t => resultLiteral t.2.2) :=
  c6_classifier_symmetry ctxOracle Op.neq (.ident ⟨7, 0, 0⟩ "ctx") (.ident ⟨8, 0, 0⟩ "nil")
    (Or.inr rfl) (Or.inl (by refine ⟨?_, ?_, ?_⟩ <;> decide))

/-- Claim C10: outside an if guard the simplifier is never applied: a
standalone binary expression whose operator is a logical connective yields
no diagnostic (the classifier rules it not applicable since the operator is
neither equality nor inequality), the driver step at such a node leaves the
state unchanged, and the preorder traversal still visits both operand
subtrees separately so that only sentinel comparisons inside them can be
reported individually. -/
theorem c10_connective_not_reported (o : TypeOracle) (file : GoFile) (i : NodeInfo)
    (op : Op) (x y : GoExpr) (st : DriverState)
    (hop : op = Op.land ∨ op = Op.lor) :
    diagnoseBinaryExpr o file (.binary i op x y) = none
    ∧ runStep o file st (.binEv (.binary i op x y)) = st
    ∧ exprEvents (.binary i op x y)
        = .binEv (.binary i op x y) :: (exprEvents x ++ exprEvents y) := by
  have hana : analyzeContextNilComparison o op x y = none := by
    rcases hop with h | h <;> simp [analyzeContextNilComparison, h]
  refine ⟨?_, ?_, rfl⟩
  · simp [diagnoseBinaryExpr, hana]
  · simp [runStep, diagnoseBinaryExpr, hana]

/-- Witness for C10 at the standalone connective `ctx != nil && f()` with
the empty driver state. -/
theorem c10_connective_not_reported_witness :
    diagnoseBinaryExpr ctxOracle emptyFile (.binary ⟨20, 0, 0⟩ .land exNeqCmp (.otherE ⟨21, 0, 0⟩ "f()")) = none
    ∧ runStep ctxOracle emptyFile ([], [])
        (.binEv (.binary ⟨20, 0, 0⟩ .land exNeqCmp (.otherE ⟨21, 0, 0⟩ "f()"))) = ([], [])
    ∧ exprEvents (.binary ⟨20, 0, 0⟩ .land exNeqCmp (.otherE ⟨21, 0, 0⟩ "f()"))
        = .binEv (.binary ⟨20, 0, 0⟩ .land exNeqCmp (.otherE ⟨21, 0, 0⟩ "f()"))
            :: (exprEvents exNeqCmp ++ exprEvents (.otherE ⟨21, 0, 0⟩ "f()")) :=
  c10_connective_not_reported ctxOracle emptyFile ⟨20, 0, 0⟩ Op.land exNeqCmp
    (.otherE ⟨21, 0, 0⟩ "f()") ([], []) (Or.inl rfl)

/-- Counterexample for C4: in `(ctx == nil) && ctx != nil` both operands
independently fold to literal results and the left one denotes false, yet
the emitted result is the collapse to the parenthesis-wrapped left text
with a collapse message — neither of the two short-circuit always-false
messages — because the wrapped literal text `(false)` escapes the
exact-spelling short-circuit test; the or-dual `(ctx != nil) || ctx == nil`
fails the same way instead of short-circuiting to always-true. -/
theorem c4_short_circuit_counterexample :
    buildReplacementCondition ctxOracle exParenEql
      = some ⟨"(false)", true, "context nil comparison \x27ctx == nil\x27 is always false"⟩
    ∧ buildReplacementCondition ctxOracle exNeqCmp
      = some ⟨"true", true, "context nil comparison \x27ctx != nil\x27 is always true"⟩
    ∧ buildReplacementCondition ctxOracle exParenEqlAndNeq
      = some ⟨"(false)", true, "simplify to \x27(false)\x27 (right side is always true)"⟩
    ∧ ("simplify to \x27(false)\x27 (right side is always true)" : String)
        ≠ "condition is always false (left side is false)"
    ∧ ("simplify to \x27(false)\x27 (right side is always true)" : String)
        ≠ "condition is always false (right side is false)"
    ∧ buildReplacementCondition ctxOracle exParenNeqOrEql
      = some ⟨"(true)", true, "simplify to \x27(true)\x27 (right side is always false)"⟩ := by
  decide

/-- Claim C4 as amended: when both operands of a connective independently
fold to literal results whose rendered texts are exactly the two boolean
literal spellings, the outcome follows the short-circuit rule — a literal
false side wins for `and`, a literal true side wins for `or` — with the
short-circuit message even when a collapse-to-other-side rule would also
apply; short-circuit checks run strictly before collapse checks and, on
each kind of check, the left side is tested before the right. A literal
fold whose text is a parenthesis-wrapped spelling escapes the exact string
tests and is handled by the collapse or re-join rules instead. -/
theorem c4_short_circuit_precedence (o : TypeOracle) (x y : GoExpr)
    (l r : ReplacementCondition)
    (hx : buildReplacementCondition o x = some l)
    (hy : buildReplacementCondition o y = some r)
    (hl : l.IsLiteral = true) (hr : r.IsLiteral = true) :
    (l.NewCondition = falseValue →
      handleLogicalExpr o Op.land x y
        = some ⟨falseValue, true, "condition is always false (left side is false)"⟩)
    ∧ (l.NewCondition ≠ falseValue → r.NewCondition = falseValue →
      handleLogicalExpr o Op.land x y
        = some ⟨falseValue, true, "condition is always false (right side is false)"⟩)
    ∧ (l.NewCondition = trueValue → r.NewCondition = trueValue →
      handleLogicalExpr o Op.land x y
        = some ⟨trueValue, true, "simplify to \x27true\x27 (left side is always true)"⟩)
    ∧ (l.NewCondition = trueValue →
      handleLogicalExpr o Op.lor x y
        = some ⟨trueValue, true, "condition is always true (left side is true)"⟩)
    ∧ (l.NewCondition ≠ trueValue → r.NewCondition = trueValue →
      handleLogicalExpr o Op.lor x y
        = some ⟨trueValue, true, "condition is always true (right side is true)"⟩)
    ∧ (l.NewCondition = falseValue → r.NewCondition = falseValue →
      handleLogicalExpr o Op.lor x y
        = some ⟨falseValue, true, "simplify to \x27false\x27 (left side is always false)"⟩) := by
  refine ⟨?_, ?_, ?_, ?_, ?_, ?_⟩
  · intro h1
    simp [handleLogicalExpr, hx, hy, simplifyAndExpr, checkAndShortCircuit, repIsLiteral, hl, h1]
  · intro h1 h2
    simp [handleLogicalExpr, hx, hy, simplifyAndExpr, checkAndShortCircuit, repIsLiteral,
      hl, hr, h1, h2]
  · intro h1 h2
    simp [handleLogicalExpr, hx, hy, simplifyAndExpr, checkAndShortCircuit,
      checkAndSimplification, repIsLiteral, isLiteralExpr, hl, hr, h1, h2, trueValue, falseValue]
  · intro h1
    simp [handleLogicalExpr, hx, hy, simplifyOrExpr, checkOrShortCircuit, repIsLiteral, hl, h1]
  · intro h1 h2
    simp [handleLogicalExpr, hx, hy, simplifyOrExpr, checkOrShortCircuit, repIsLiteral,
      hl, hr, h1, h2]
  · intro h1 h2
    simp [handleLogicalExpr, hx, hy, simplifyOrExpr, checkOrShortCircuit,
      checkOrSimplification, repIsLiteral, isLiteralExpr, hl, hr, h1, h2, trueValue, falseValue]

/-- Witness for C4 as amended, at `ctx != nil && ctx == nil`: the left
side folds to literal true (so the left collapse rule would apply) and the
right side to literal false, both with exact-spelling texts; the
right-side short-circuit message wins. -/
theorem c4_short_circuit_precedence_witness :
    handleLogicalExpr ctxOracle Op.land exNeqCmp exEqlCmp
      = some ⟨falseValue, true, "condition is always false (right side is false)"⟩ :=
  (c4_short_circuit_precedence ctxOracle exNeqCmp exEqlCmp
      ⟨trueValue, true, "context nil comparison \x27ctx != nil\x27 is always true"⟩
      ⟨falseValue, true, "context nil comparison \x27ctx == nil\x27 is always false"⟩
      (by decide) (by decide) rfl rfl).2.1 (by decide) rfl

/-- Counterexample for C5: in `true && (ctx != nil && ready)` the rendered
text of the left operand is the boolean literal spelling `true`, yet no
collapse to the other side happens (the result is the textual re-join with
its re-join message), while in the mirrored `(ctx != nil && ready) && true`
the right operand with rendered text `true` does collapse: the collapse is
not symmetric in the operand sides. -/
theorem c5_collapse_counterexample :
    buildReplacementCondition ctxOracle exTrueAndParen
      = some ⟨"true && (ready)", false, "simplify to \x27true && (ready)\x27"⟩
    ∧ (buildReplacementCondition ctxOracle exTrueAndParen).map
        (fun rc => rc.NewCondition) ≠ some "(ready)"
    ∧ buildReplacementCondition ctxOracle exParenAndTrue
      = some ⟨"(ready)", false, "simplify to \x27(ready)\x27 (right side is always true)"⟩ := by
  decide

/-- Claim C5 as amended: for an `and` connective not short-circuited by a
literal false side, the collapse fires when the left side yielded a literal
result whose rendered text is `true`, or — failing that check — when the
right side has rendered text `true` whether or not it yielded a result; the
collapsed result keeps the other side text, is literal exactly when that
side yielded a literal result or its text is one of the two boolean
spellings, and carries the corresponding collapse message. A left side
whose rendered text is `true` without a yielded literal result does not
collapse, so the two sides are not treated symmetrically. -/
theorem c5_collapse_amended (le re : String) (lr rr : Option ReplacementCondition)
    (hsc : checkAndShortCircuit le re lr rr = none) :
    (repIsLiteral lr = true → le = trueValue →
      simplifyAndExpr le re lr rr
        = some ⟨re, isLiteralExpr re rr,
            "simplify to \x27" ++ re ++ "\x27 (left side is always true)"⟩)
    ∧ (¬(repIsLiteral lr = true ∧ le = trueValue) → re = trueValue →
      simplifyAndExpr le re lr rr
        = some ⟨le, isLiteralExpr le lr,
            "simplify to \x27" ++ le ++ "\x27 (right side is always true)"⟩) := by
  constructor
  · intro h1 h2
    subst h2
    simp [simplifyAndExpr, hsc, checkAndSimplification, h1]
  · intro h1 h2
    subst h2
    have hfalse : (repIsLiteral lr && (le == trueValue)) = false := by
      rcases Bool.eq_false_or_eq_true (repIsLiteral lr) with hb | hb
      · have hne : le ≠ trueValue := fun hh => h1 ⟨hb, hh⟩
        simp [hb, hne]
      · simp [hb]
    simp [simplifyAndExpr, hsc, checkAndSimplification, hfalse]

/-- Witness for C5 as amended, at a left side that folded to literal
`true` and a right side `ready` that yielded nothing. -/
theorem c5_collapse_amended_witness :
    simplifyAndExpr trueValue "ready" (some ⟨trueValue, true, "m"⟩) none
      = some ⟨"ready", false, "simplify to \x27ready\x27 (left side is always true)"⟩ :=
  (c5_collapse_amended trueValue "ready" (some ⟨trueValue, true, "m"⟩) none
    (by decide)).1 rfl rfl

/-- Shape of a short-circuit result for `and`: the false literal, literal. -/
theorem checkAndShortCircuit_shape {le re : String} {lr rr : Option ReplacementCondition}
    {r : ReplacementCondition} (h : checkAndShortCircuit le re lr rr = some r) :
    r.NewCondition = falseValue ∧ r.IsLiteral = true := by
  simp only [checkAndShortCircuit] at h
  split at h
  · cases h; exact ⟨rfl, rfl⟩
  · split at h
    · cases h; exact ⟨rfl, rfl⟩
    · exact Option.noConfusion h

/-- Shape of a collapse result for `and`: one side text, with its
`isLiteralExpr` status. -/
theorem checkAndSimplification_shape {le re : String} {lr rr : Option ReplacementCondition}
    {r : ReplacementCondition} (h : checkAndSimplification le re lr rr = some r) :
    (r.NewCondition = re ∧ r.IsLiteral = isLiteralExpr re rr)
    ∨ (r.NewCondition = le ∧ r.IsLiteral = isLiteralExpr le lr) := by
  simp only [checkAndSimplification] at h
  split at h
  · cases h; exact Or.inl ⟨rfl, rfl⟩
  · split at h
    · cases h; exact Or.inr ⟨rfl, rfl⟩
    · exact Option.noConfusion h

/-- A textual re-join for `and` is never literal. -/
theorem buildAndReplacement_shape {le re : String} {lr rr : Option ReplacementCondition}
    {r : ReplacementCondition} (h : buildAndReplacement le re lr rr = some r) :
    r.IsLiteral = false := by
  simp only [buildAndReplacement] at h
  split at h
  · cases h; rfl
  · exact Option.noConfusion h

/-- A literal result of `simplifyAndExpr` is the false literal or a
collapse to one side whose `isLiteralExpr` check held. -/
theorem simplifyAndExpr_literal_shape {le re : String} {lr rr : Option ReplacementCondition}
    {r : ReplacementCondition} (h : simplifyAndExpr le re lr rr = some r)
    (hlit : r.IsLiteral = true) :
    r.NewCondition = falseValue
    ∨ (r.NewCondition = re ∧ isLiteralExpr re rr = true)
    ∨ (r.NewCondition = le ∧ isLiteralExpr le lr = true) := by
  simp only [simplifyAndExpr] at h
  split at h
  · next hsc => cases h; exact Or.inl (checkAndShortCircuit_shape hsc).1
  · split at h
    · next hcs =>
      cases h
      rcases checkAndSimplification_shape hcs with ⟨h1, h2⟩ | ⟨h1, h2⟩
      · exact Or.inr (Or.inl ⟨h1, h2 ▸ hlit⟩)
      · exact Or.inr (Or.inr ⟨h1, h2 ▸ hlit⟩)
    · exact absurd hlit (by simp [buildAndReplacement_shape h])

/-- Shape of a short-circuit result for `or`: the true literal, literal. -/
theorem checkOrShortCircuit_shape {le re : String} {lr rr : Option ReplacementCondition}
    {r : ReplacementCondition} (h : checkOrShortCircuit le re lr rr = some r) :
    r.NewCondition = trueValue ∧ r.IsLiteral = true := by
  simp only [checkOrShortCircuit] at h
  split at h
  · cases h; exact ⟨rfl, rfl⟩
  · split at h
    · cases h; exact ⟨rfl, rfl⟩
    · exact Option.noConfusion h

/-- Shape of a collapse result for `or`. -/
theorem checkOrSimplification_shape {le re : String} {lr rr : Option ReplacementCondition}
    {r : ReplacementCondition} (h : checkOrSimplification le re lr rr = some r) :
    (r.NewCondition = re ∧ r.IsLiteral = isLiteralExpr re rr)
    ∨ (r.NewCondition = le ∧ r.IsLiteral = isLiteralExpr le lr) := by
  simp only [checkOrSimplification] at h
  split at h
  · cases h; exact Or.inl ⟨rfl, rfl⟩
  · split at h
    · cases h; exact Or.inr ⟨rfl, rfl⟩
    · exact Option.noConfusion h

/-- A textual re-join for `or` is never literal. -/
theorem buildOrReplacement_shape {le re : String} {lr rr : Option ReplacementCondition}
    {r : ReplacementCondition} (h : buildOrReplacement le re lr rr = some r) :
    r.IsLiteral = false := by
  simp only [buildOrReplacement] at h
  split at h
  · cases h; rfl
  · exact Option.noConfusion h

/-- A literal result of `simplifyOrExpr` is the true literal or a collapse
to one side whose `isLiteralExpr` check held. -/
theorem simplifyOrExpr_literal_shape {le re : String} {lr rr : Option ReplacementCondition}
    {r : ReplacementCondition} (h : simplifyOrExpr le re lr rr = some r)
    (hlit : r.IsLiteral = true) :
    r.NewCondition = trueValue
    ∨ (r.NewCondition = re ∧ isLiteralExpr re rr = true)
    ∨ (r.NewCondition = le ∧ isLiteralExpr le lr = true) := by
  simp only [simplifyOrExpr] at h
  split at h
  · next hsc => cases h; exact Or.inl (checkOrShortCircuit_shape hsc).1
  · split at h
    · next hcs =>
      cases h
      rcases checkOrSimplification_shape hcs with ⟨h1, h2⟩ | ⟨h1, h2⟩
      · exact Or.inr (Or.inl ⟨h1, h2 ▸ hlit⟩)
      · exact Or.inr (Or.inr ⟨h1, h2 ▸ hlit⟩)
    · exact absurd hlit (by simp [buildOrReplacement_shape h])

/-- Helper: `handleLogicalExpr` rewritten through `renderOperand`: when at least
one side yields a simplification result, each operand is rendered as its
simplified text when present and as its `formatExpr` output otherwise, and
the connective algebra is applied to the rendered texts. -/
theorem handleLogicalExpr_eq (o : TypeOracle) (op : Op) (x y : GoExpr)
    (hne : ¬(buildReplacementCondition o x = none ∧ buildReplacementCondition o y = none)) :
    handleLogicalExpr o op x y
      = if op = Op.land then
          simplifyAndExpr (renderOperand o x) (renderOperand o y)
            (buildReplacementCondition o x) (buildReplacementCondition o y)
        else
          simplifyOrExpr (renderOperand o x) (renderOperand o y)
            (buildReplacementCondition o x) (buildReplacementCondition o y) := by
  cases hx : buildReplacementCondition o x with
  | none =>
    cases hy : buildReplacementCondition o y with
    | none => exact absurd ⟨hx, hy⟩ hne
    | some ry => simp [handleLogicalExpr, renderOperand, hx, hy]
  | some rx =>
    cases hy : buildReplacementCondition o y with
    | none => simp [handleLogicalExpr, renderOperand, hx, hy]
    | some ry => simp [handleLogicalExpr, renderOperand, hx, hy]

/-- If a rendered side passes the `isLiteralExpr` check, it is a boolean
literal spelling under finitely many parentheses, assuming the induction
hypothesis for the side expression. -/
theorem collapse_side_paren_literal (o : TypeOracle) (side : GoExpr) (s : String)
    (hside : s = (match buildReplacementCondition o side with
      | some rc => rc.NewCondition
      | none => formatExpr side))
    (ih : ∀ rc, buildReplacementCondition o side = some rc → rc.IsLiteral = true →
      ∃ n, rc.NewCondition = wrapParens n trueValue ∨ rc.NewCondition = wrapParens n falseValue)
    (hlit : isLiteralExpr s (buildReplacementCondition o side) = true) :
    ∃ n, s = wrapParens n trueValue ∨ s = wrapParens n falseValue := by
  cases hb : buildReplacementCondition o side with
  | none =>
    rw [hb] at hlit
    simp only [isLiteralExpr, repIsLiteral, Bool.false_or, Bool.or_eq_true, beq_iff_eq] at hlit
    rcases hlit with h | h
    · exact ⟨0, Or.inl h⟩
    · exact ⟨0, Or.inr h⟩
  | some rc =>
    rw [hb] at hside hlit
    simp only at hside
    subst hside
    simp only [isLiteralExpr, repIsLiteral, Bool.or_eq_true, beq_iff_eq] at hlit
    rcases hlit with (h | h) | h
    · exact ih rc hb h
    · exact ⟨0, Or.inl h⟩
    · exact ⟨0, Or.inr h⟩

/-- A literal result of `handleLogicalExpr` is a boolean literal spelling
under finitely many parentheses, assuming the induction hypotheses for the
operand subtrees. -/
theorem handleLogicalExpr_literal_shape (o : TypeOracle) (op : Op) (x y : GoExpr)
    (r : ReplacementCondition) (h : handleLogicalExpr o op x y = some r)
    (hlit : r.IsLiteral = true)
    (ihx : ∀ rc, buildReplacementCondition o x = some rc → rc.IsLiteral = true →
      ∃ n, rc.NewCondition = wrapParens n trueValue ∨ rc.NewCondition = wrapParens n falseValue)
    (ihy : ∀ rc, buildReplacementCondition o y = some rc → rc.IsLiteral = true →
      ∃ n, rc.NewCondition = wrapParens n trueValue ∨ rc.NewCondition = wrapParens n falseValue) :
    ∃ n, r.NewCondition = wrapParens n trueValue ∨ r.NewCondition = wrapParens n falseValue := by
  by_cases hnn : buildReplacementCondition o x = none ∧ buildReplacementCondition o y = none
  · rw [show handleLogicalExpr o op x y = none by simp [handleLogicalExpr, hnn.1, hnn.2]] at h
    exact Option.noConfusion h
  · rw [handleLogicalExpr_eq o op x y hnn] at h
    split at h
    · rcases simplifyAndExpr_literal_shape h hlit with hf | ⟨hre, hl⟩ | ⟨hle, hl⟩
      · exact ⟨0, Or.inr hf⟩
      · rw [hre]
        exact collapse_side_paren_literal o y (renderOperand o y) rfl ihy hl
      · rw [hle]
        exact collapse_side_paren_literal o x (renderOperand o x) rfl ihx hl
    · rcases simplifyOrExpr_literal_shape h hlit with ht | ⟨hre, hl⟩ | ⟨hle, hl⟩
      · exact ⟨0, Or.inl ht⟩
      · rw [hre]
        exact collapse_side_paren_literal o y (renderOperand o y) rfl ihy hl
      · rw [hle]
        exact collapse_side_paren_literal o x (renderOperand o x) rfl ihx hl

/-- Counterexample for C1: simplifying the parenthesized comparison
`(ctx == nil)` produces a result that is flagged literal but whose new text
`(false)` is neither of the two boolean literal spellings. -/
theorem c1_literal_invariant_counterexample :
    buildReplacementCondition ctxOracle exParenEql
      = some ⟨"(false)", true, "context nil comparison \x27ctx == nil\x27 is always false"⟩
    ∧ ("(false)" : String) ≠ trueValue ∧ ("(false)" : String) ≠ falseValue := by
  decide

/-- Claim C1 as amended: whenever the simplifier yields a result whose
`IsLiteral` flag is true, its new text is one of the two boolean literal
spellings wrapped in zero or more pairs of parentheses — the parentheses
being contributed exactly by the parenthesized-expression re-wrap rule. -/
theorem c1_literal_invariant_amended (o : TypeOracle) (e : GoExpr) (r : ReplacementCondition)
    (h : buildReplacementCondition o e = some r) (hlit : r.IsLiteral = true) :
    ∃ n, r.NewCondition = wrapParens n trueValue ∨ r.NewCondition = wrapParens n falseValue := by
  induction e generalizing r with
  | binary i op x y ihx ihy =>
    rw [show buildReplacementCondition o (.binary i op x y) = handleBinaryExpr o i op x y
      from rfl] at h
    simp only [handleBinaryExpr] at h
    cases hana : analyzeContextNilComparison o op x y with
    | some t =>
      obtain ⟨a, b, isEq⟩ := t
      rw [hana] at h
      simp only at h
      cases h
      cases isEq
      · exact ⟨0, Or.inl rfl⟩
      · exact ⟨0, Or.inr rfl⟩
    | none =>
      rw [hana] at h
      simp only at h
      split at h
      · exact handleLogicalExpr_literal_shape o op x y r h hlit ihx ihy
      · exact Option.noConfusion h
  | paren i x ih =>
    simp only [buildReplacementCondition] at h
    cases hx : buildReplacementCondition o x with
    | none => rw [hx] at h; exact Option.noConfusion h
    | some inner =>
      rw [hx] at h
      simp only at h
      cases h
      obtain ⟨n, hn | hn⟩ := ih inner hx hlit
      · exact ⟨n + 1, Or.inl (by simp [wrapParens, hn])⟩
      · exact ⟨n + 1, Or.inr (by simp [wrapParens, hn])⟩
  | unary i x ih => simp [buildReplacementCondition] at h
  | ident i n => simp [buildReplacementCondition] at h
  | otherE i s => simp [buildReplacementCondition] at h

/-- Witness for C1 as amended, at the parenthesized comparison
`(ctx == nil)` whose literal result text is `(false)`. -/
theorem c1_literal_invariant_amended_witness :
    ∃ n, ("(false)" : String) = wrapParens n trueValue
      ∨ ("(false)" : String) = wrapParens n falseValue :=
  c1_literal_invariant_amended ctxOracle exParenEql
    ⟨"(false)", true, "context nil comparison \x27ctx == nil\x27 is always false"⟩
    (by decide) rfl

/-- Counterexample for C3: in `ctx != nil && f()` the non-yielding call
operand is rendered as the fixed placeholder `expr`, not as its original
source text `f()`. -/
theorem c3_render_counterexample :
    buildReplacementCondition ctxOracle exAndCall
      = some ⟨"expr", false, "simplify to \x27expr\x27 (left side is always true)"⟩
    ∧ sourceText (.otherE ⟨21, 0, 0⟩ "f()") = "f()"
    ∧ ("expr" : String) ≠ "f()" := by
  decide

/-- Claim C3 as amended: each operand of a connective with at least one
yielding side is rendered as its simplified text when that side yielded a
result and as its `formatExpr` output otherwise — which is the original
source text for identifiers but the fixed placeholder `expr` for calls,
selectors and every other unhandled shape. -/
theorem c3_render_amended (o : TypeOracle) (op : Op) (x y : GoExpr) (i : NodeInfo)
    (nm s : String)
    (hne : ¬(buildReplacementCondition o x = none ∧ buildReplacementCondition o y = none)) :
    handleLogicalExpr o op x y
      = (if op = Op.land then
          simplifyAndExpr (renderOperand o x) (renderOperand o y)
            (buildReplacementCondition o x) (buildReplacementCondition o y)
        else
          simplifyOrExpr (renderOperand o x) (renderOperand o y)
            (buildReplacementCondition o x) (buildReplacementCondition o y))
    ∧ renderOperand o (.ident i nm) = nm
    ∧ renderOperand o (.otherE i s) = "expr" := by
  refine ⟨handleLogicalExpr_eq o op x y hne, ?_, ?_⟩
  · simp [renderOperand, buildReplacementCondition, formatExpr]
  · simp [renderOperand, buildReplacementCondition, formatExpr]

/-- Witness for C3 as amended, at the connective `ctx != nil && f()`. -/
theorem c3_render_amended_witness :
    handleLogicalExpr ctxOracle Op.land exNeqCmp (.otherE ⟨21, 0, 0⟩ "f()")
      = (if Op.land = Op.land then
          simplifyAndExpr (renderOperand ctxOracle exNeqCmp)
            (renderOperand ctxOracle (.otherE ⟨21, 0, 0⟩ "f()"))
            (buildReplacementCondition ctxOracle exNeqCmp)
            (buildReplacementCondition ctxOracle (.otherE ⟨21, 0, 0⟩ "f()"))
        else
          simplifyOrExpr (renderOperand ctxOracle exNeqCmp)
            (renderOperand ctxOracle (.otherE ⟨21, 0, 0⟩ "f()"))
            (buildReplacementCondition ctxOracle exNeqCmp)
            (buildReplacementCondition ctxOracle (.otherE ⟨21, 0, 0⟩ "f()")))
    ∧ renderOperand ctxOracle (.ident ⟨22, 0, 0⟩ "ready") = "ready"
    ∧ renderOperand ctxOracle (.otherE ⟨21, 0, 0⟩ "f()") = "expr" :=
  c3_render_amended ctxOracle Op.land exNeqCmp (.otherE ⟨21, 0, 0⟩ "f()")
    ⟨22, 0, 0⟩ "ready" "f()" (by decide)

/-- Claim C2 evaluated on the code (code bug): for the guard
`(ctx != nil)` with an else branch — a guard that folds to a literal true
result with text `(true)` — the emitted diagnostic is the always-FALSE one
and its edit substitutes the else clause text; and even for the
unparenthesized guard `ctx != nil` with an else branch, where the message
is the expected one, the edit inserts the constant placeholder block
`\x7b\n\t// statements\n\x7d` rather than the consequent block source
text: the replacement is independent of the consequent content, as the
last conjunct shows on two different blocks. -/
theorem c2_true_condition_code_bug :
    diagnoseIfStmt ctxOracle emptyFile exIfParenGuard
      = some ⟨100, "condition is always false, then clause is unreachable",
          [⟨"Replace with else clause", [⟨100, 200, "\x7b\n\t// statements\n\x7d"⟩]⟩]⟩
    ∧ diagnoseIfStmt ctxOracle emptyFile exIfPlainGuard
      = some ⟨300, "condition is always true, else clause is unreachable",
          [⟨"Replace with then clause", [⟨300, 400, "\x7b\n\t// statements\n\x7d"⟩]⟩]⟩
    ∧ formatStmt (.block ⟨44, 320, 350⟩ [.exprS ⟨45, 321, 330⟩ (.ident ⟨46, 321, 330⟩ "f")])
      = formatStmt (.block ⟨35, 121, 150⟩ []) := by
  decide

/-- The driver fold splits over list append. -/
theorem runEvents_append (o : TypeOracle) (f : GoFile) (a b : List DriverEvent)
    (st : DriverState) :
    runEvents o f (a ++ b) st = runEvents o f b (runEvents o f a st) := by
  simp [runEvents, List.foldl_append]

/-- The driver fold unfolds one step at a time. -/
theorem runEvents_cons (o : TypeOracle) (f : GoFile) (ev : DriverEvent)
    (evs : List DriverEvent) (st : DriverState) :
    runEvents o f (ev :: evs) st = runEvents o f evs (runStep o f st ev) := by
  simp [runEvents]

/-- One driver step never removes entries from the processed set. -/
theorem runStep_processed_mono (o : TypeOracle) (f : GoFile) (st : DriverState)
    (ev : DriverEvent) (a : Nat) (ha : a ∈ st.1) : a ∈ (runStep o f st ev).1 := by
  cases ev with
  | ifEv i c bo e =>
    simp only [runStep]
    split
    · exact List.mem_append_left _ ha
    · exact ha
  | binEv e =>
    simp only [runStep]
    split
    · exact ha
    · split
      · exact ha
      · exact ha

/-- The driver fold never removes entries from the processed set. -/
theorem runEvents_processed_mono (o : TypeOracle) (f : GoFile) (evs : List DriverEvent)
    (st : DriverState) (a : Nat) (ha : a ∈ st.1) : a ∈ (runEvents o f evs st).1 := by
  induction evs generalizing st with
  | nil => exact ha
  | cons ev evs ih =>
    rw [runEvents_cons]
    exact ih _ (runStep_processed_mono o f st ev a ha)

/-- A pair reported by one driver step carries the identity of that
step event. -/
theorem runStep_pairs (o : TypeOracle) (f : GoFile) (st : DriverState)
    (ev : DriverEvent) (p : Nat × Diagnostic) (hp : p ∈ (runStep o f st ev).2) :
    p ∈ st.2 ∨ p.1 = eventId ev := by
  cases ev with
  | ifEv i c bo e =>
    simp only [runStep] at hp
    split at hp
    · rcases List.mem_append.mp hp with h | h
      · exact Or.inl h
      · simp only [List.mem_singleton] at h
        subst h
        exact Or.inr rfl
    · exact Or.inl hp
  | binEv e =>
    simp only [runStep] at hp
    split at hp
    · exact Or.inl hp
    · split at hp
      · rcases List.mem_append.mp hp with h | h
        · exact Or.inl h
        · simp only [List.mem_singleton] at h
          subst h
          exact Or.inr rfl
      · exact Or.inl hp

/-- A pair reported during a fold carries the identity of one of the
folded events. -/
theorem runEvents_pairs (o : TypeOracle) (f : GoFile) (evs : List DriverEvent)
    (st : DriverState) (p : Nat × Diagnostic) (hp : p ∈ (runEvents o f evs st).2) :
    p ∈ st.2 ∨ p.1 ∈ eventIds evs := by
  induction evs generalizing st with
  | nil => exact Or.inl hp
  | cons ev evs ih =>
    rw [runEvents_cons] at hp
    rcases ih _ hp with h | h
    · rcases runStep_pairs o f st ev p h with h2 | h2
      · exact Or.inl h2
      · exact Or.inr (by simp [eventIds, h2])
    · exact Or.inr (by simp [eventIds] at h ⊢; exact Or.inr h)

/-- Once an identity is in the processed set, no later event reports a
pair for it, provided no if-statement event carries that identity. -/
theorem runEvents_skip (o : TypeOracle) (f : GoFile) (evs : List DriverEvent)
    (st : DriverState) (b : Nat) (hb : b ∈ st.1)
    (hif : ∀ i c bo e, DriverEvent.ifEv i c bo e ∈ evs → i.id ≠ b)
    (p : Nat × Diagnostic) (hp : p ∈ (runEvents o f evs st).2) (hpb : p.1 = b) :
    p ∈ st.2 := by
  induction evs generalizing st with
  | nil => exact hp
  | cons ev evs ih =>
    rw [runEvents_cons] at hp
    have hif2 : ∀ i c bo e, DriverEvent.ifEv i c bo e ∈ evs → i.id ≠ b :=
      fun i c bo e hm => hif i c bo e (List.mem_cons_of_mem _ hm)
    cases ev with
    | ifEv i c bo e =>
      have hine : i.id ≠ b := hif i c bo e (List.mem_cons_self _ _)
      have hstep := ih (runStep o f st (.ifEv i c bo e))
        (runStep_processed_mono o f st _ b hb) hif2 hp
      simp only [runStep] at hstep
      split at hstep
      · rcases List.mem_append.mp hstep with h | h
        · exact h
        · simp only [List.mem_singleton] at h
          subst h
          exact absurd hpb hine
      · exact hstep
    | binEv e =>
      have hstep := ih (runStep o f st (.binEv e))
        (runStep_processed_mono o f st _ b hb) hif2 hp
      simp only [runStep] at hstep
      split at hstep
      · exact hstep
      · next hnotin =>
        have hne : (exprInfo e).id ≠ b := fun hh => hnotin (hh ▸ hb)
        split at hstep
        · rcases List.mem_append.mp hstep with h | h
          · exact h
          · simp only [List.mem_singleton] at h
            subst h
            exact absurd hpb hne
        · exact hstep

/-- Every binary sub-expression identity is marked by
`markProcessedExpr`. -/
theorem binIds_mem_mark (e : GoExpr) (a : Nat) (ha : a ∈ binIds e) :
    a ∈ markProcessedExpr e := by
  induction e with
  | binary i op x y ihx ihy =>
    simp only [binIds, markProcessedExpr, List.mem_cons, List.mem_append] at ha ⊢
    rcases ha with h | h | h
    · exact Or.inl h
    · exact Or.inr (Or.inl (ihx h))
    · exact Or.inr (Or.inr (ihy h))
  | paren i x ih =>
    simp only [binIds] at ha
    simp only [markProcessedExpr, List.mem_cons]
    exact Or.inr (ih ha)
  | unary i x ih =>
    simp only [binIds] at ha
    simp only [markProcessedExpr, List.mem_cons]
    exact Or.inr (ih ha)
  | ident i n => simp [binIds] at ha
  | otherE i s => simp [binIds] at ha

/-- The identities of the preorder expression events are exactly the
binary sub-expression identities. -/
theorem eventIds_exprEvents (e : GoExpr) : eventIds (exprEvents e) = binIds e := by
  induction e with
  | binary i op x y ihx ihy =>
    simp only [eventIds] at ihx ihy
    simp [exprEvents, binIds, eventIds, eventId, exprInfo, ihx, ihy]
  | paren i x ih => simpa [exprEvents, binIds, eventIds] using ih
  | unary i x ih => simpa [exprEvents, binIds, eventIds] using ih
  | ident i n => simp [exprEvents, binIds, eventIds]
  | otherE i s => simp [exprEvents, binIds, eventIds]

/-- Expression subtrees only produce binary-expression events. -/
theorem exprEvents_all_bin (e : GoExpr) (ev : DriverEvent) (hm : ev ∈ exprEvents e) :
    ∃ ex, ev = DriverEvent.binEv ex := by
  induction e with
  | binary i op x y ihx ihy =>
    simp only [exprEvents, List.mem_cons, List.mem_append] at hm
    rcases hm with h | h | h
    · exact ⟨_, h⟩
    · exact ihx h
    · exact ihy h
  | paren i x ih => exact ih (by simpa [exprEvents] using hm)
  | unary i x ih => exact ih (by simpa [exprEvents] using hm)
  | ident i n => simp [exprEvents] at hm
  | otherE i s => simp [exprEvents] at hm

/-- Claim C9: in one preorder traversal of a module with pointwise
distinct node identities, every binary sub-expression of the guard of a
conditional for which a diagnostic was produced (through parenthesized,
unary and binary wrappers) ends up in the processed set, and no diagnostic
reported in the same traversal is keyed by such a sub-expression — in
particular it is never also reported as a standalone bare comparison. -/
theorem c9_no_double_reporting (o : TypeOracle) (file : GoFile) (m : List GoStmt)
    (evs1 evs2 : List DriverEvent) (i : NodeInfo) (cond : GoExpr) (body : GoStmt)
    (els : Option GoStmt) (b : Nat) (d : Diagnostic)
    (hsplit : stmtListEvents m
      = evs1 ++ DriverEvent.ifEv i cond body els :: (exprEvents cond ++ evs2))
    (hnd : (eventIds (stmtListEvents m)).Nodup)
    (hdiag : diagnoseIfStmt o file (.ifS i cond body els) = some d)
    (hb : b ∈ binIds cond) :
    b ∈ (runModule o file m).1
    ∧ (runModule o file m).2.all (fun p => p.1 != b) = true := by
  rw [hsplit] at hnd
  have hnd' : (eventIds evs1 ++ i.id ::
      (eventIds (exprEvents cond) ++ eventIds evs2)).Nodup := by
    have heq : eventIds (evs1 ++ DriverEvent.ifEv i cond body els :: (exprEvents cond ++ evs2))
        = eventIds evs1 ++ i.id :: (eventIds (exprEvents cond) ++ eventIds evs2) := by
      simp [eventIds, eventId]
    rw [heq] at hnd
    exact hnd
  have hbce : b ∈ eventIds (exprEvents cond) := by
    rw [eventIds_exprEvents]
    exact hb
  obtain ⟨hA, hC, hdisj⟩ := List.nodup_append.mp hnd'
  obtain ⟨hhead, hBD⟩ := List.nodup_cons.mp hC
  have hb_not1 : b ∉ eventIds evs1 := by
    intro hmem
    exact hdisj hmem (List.mem_cons_of_mem _ (List.mem_append_left _ hbce))
  have hib : i.id ≠ b := by
    intro hh
    exact hhead (hh ▸ List.mem_append_left _ hbce)
  have hb_not2 : b ∉ eventIds evs2 := by
    intro hmem
    exact (List.disjoint_of_nodup_append hBD) hbce hmem
  have hifrest : ∀ i2 c2 bo2 e2,
      DriverEvent.ifEv i2 c2 bo2 e2 ∈ (exprEvents cond ++ evs2) → i2.id ≠ b := by
    intro i2 c2 bo2 e2 hm heq
    rcases List.mem_append.mp hm with h | h
    · obtain ⟨ex, hex⟩ := exprEvents_all_bin cond _ h
      exact DriverEvent.noConfusion hex
    · have hmm : i2.id ∈ eventIds evs2 := List.mem_map_of_mem eventId h
      rw [heq] at hmm
      exact hb_not2 hmm
  have hrun : runModule o file m
      = runEvents o file (exprEvents cond ++ evs2)
          (runStep o file (runEvents o file evs1 ([], [])) (.ifEv i cond body els)) := by
    rw [runModule, hsplit, runEvents_append, runEvents_cons]
  have hstep : runStep o file (runEvents o file evs1 ([], [])) (.ifEv i cond body els)
      = ((runEvents o file evs1 ([], [])).1 ++ markProcessedExpr cond,
         (runEvents o file evs1 ([], [])).2 ++ [(i.id, d)]) := by
    simp [runStep, hdiag]
  constructor
  · rw [hrun, hstep]
    exact runEvents_processed_mono o file _ _ b
      (List.mem_append_right _ (binIds_mem_mark cond b hb))
  · rw [hrun, hstep, List.all_eq_true]
    intro p hp
    simp only [bne_iff_ne, ne_eq]
    intro hpb
    have hskip := runEvents_skip o file (exprEvents cond ++ evs2) _ b
      (List.mem_append_right _ (binIds_mem_mark cond b hb)) hifrest p hp hpb
    rcases List.mem_append.mp hskip with h | h
    · rcases runEvents_pairs o file evs1 ([], []) p h with h2 | h2
      · simp at h2
      · rw [hpb] at h2
        exact hb_not1 h2
    · simp only [List.mem_singleton] at h
      subst h
      exact hib hpb

/-- Witness for C9: in the one-statement module `if ctx == nil { }`, the
guard comparison (identity 3) is marked processed and no reported
diagnostic is keyed by it. -/
theorem c9_no_double_reporting_witness :
    3 ∈ (runModule ctxOracle emptyFile exModule).1
    ∧ (runModule ctxOracle emptyFile exModule).2.all (fun p => p.1 != 3) = true :=
  c9_no_double_reporting ctxOracle emptyFile exModule [] [] ⟨1, 10, 50⟩ exModuleCond
    (.block ⟨2, 20, 40⟩ []) none 3
    ⟨10, "condition is always false, remove entire if statement",
      [⟨"Remove if statement", [⟨10, 50, ""⟩]⟩]⟩
    rfl (by decide) (by decide) (by decide)
